import Mathlib

/-!
Verification development for the Minitopic repository: a shallow embedding of
the fetch/cache/search/mark pipeline (`minitopic/minitopic.py`), the simple
file cache (`utils/simple_cache.py`) and the keyword dictionary
(`minitopic/utils/wordset.py`), together with theorems settling the spec's
claims about them.
-/

/-! ## Data model

An `Entry` is one feed article record; the spec's data model gives `status`
the enum values unread | read | removed.  Fields the pipeline never touches
(`feed` details, `url`, `published_at`) are carried as plain data. -/

inductive EntryStatus where
  | unread
  | read
  | removed
deriving DecidableEq, Repr

structure Entry where
  id : Nat
  title : String
  url : String
  status : EntryStatus
  published_at : Int
  feed_title : String
  feed_url : String
deriving DecidableEq, Repr

/-! ## Model of `re.search(keyword, string, re.IGNORECASE)`

The program only ever feeds literal keywords to `re.search`, so the embedding
models the literal fragment of Python regular expressions: a pattern matches
where it occurs as a case-insensitive substring, and the first (leftmost)
occurrence is reported as a span of start/end character offsets, `end`
exclusive, exactly as `re.Match.start()` / `re.Match.end()` report it.
A pattern with unbalanced parentheses is a syntax error (`re.error` in
Python), modelled through `Except`. -/

structure MatchSpan where
  start : Nat
  stop : Nat
deriving DecidableEq, Repr

/-- Leftmost index at which `p` occurs as a sublist of the scanned list,
counting from `i`. -/
def firstOccAux (p : List Char) : List Char → Nat → Option Nat
  | [], i => if p.isEmpty then some i else none
  | c :: rest, i =>
    if p.isPrefixOf (c :: rest) then some i else firstOccAux p rest (i + 1)

def firstOcc (p s : List Char) : Option Nat :=
  firstOccAux p s 0

/-- Character-wise case folding (the effect of Python's `str.lower()` /
`re.IGNORECASE` on the character sets this program uses). -/
def lowerKey (s : String) : List Char :=
  s.toList.map Char.toLower

/-- Case-insensitive first-occurrence search, the model of
`re.search(pattern, s, re.IGNORECASE)` for a literal `pattern`. -/
def reSearchCI (pattern s : String) : Option MatchSpan :=
  (firstOcc (lowerKey pattern) (lowerKey s)).map
    (fun i => ⟨i, i + pattern.length⟩)

/-- Pattern syntax check of the modelled fragment: parentheses must be
balanced, as in Python, where e.g. `re.compile("(")` raises `re.error`. -/
def regexWellFormed (p : String) : Bool :=
  (p.toList.foldl
    (fun acc c =>
      match acc with
      | none => none
      | some depth =>
        if c = '(' then some (depth + 1)
        else if c = ')' then (if depth = 0 then none else some (depth - 1))
        else some depth)
    (some 0)) = some 0

/-- `re.search` including the possibility of a pattern syntax error. -/
def reSearchE (pattern s : String) : Except String (Option MatchSpan) :=
  if regexWellFormed pattern then .ok (reSearchCI pattern s) else .error "re.error"

/-! ## `and_or_not_match` (minitopic/minitopic.py, lines 35-77) -/

structure AndOrNotResult where
  is_match : Bool
  matches_and : List (Option MatchSpan)
  matches_or : List (Option MatchSpan)
  matches_not : List (Option MatchSpan)
deriving DecidableEq, Repr

/-- Embedding of `and_or_not_match`: search every pattern of the three lists
against `string` (a `re.error` aborts, as the Python list comprehension
would), then combine: AND holds when the list is empty or all patterns
matched, OR when empty or some pattern matched, NOT when empty or no pattern
matched; a Python match object is truthy and `None` falsy, hence
`Option.isSome`. -/
def and_or_not_match (string : String)
    (patterns_and patterns_or patterns_not : List String) :
    Except String AndOrNotResult := do
  let matches_and ← patterns_and.mapM (fun keyword => reSearchE keyword string)
  let matches_or ← patterns_or.mapM (fun keyword => reSearchE keyword string)
  let matches_not ← patterns_not.mapM (fun keyword => reSearchE keyword string)
  let is_match_and : Bool := matches_and.length = 0 || matches_and.all Option.isSome
  let is_match_or : Bool := matches_or.length = 0 || matches_or.any Option.isSome
  let is_match_not : Bool := matches_not.length = 0 || !(matches_not.any Option.isSome)
  .ok ⟨is_match_and && is_match_or && is_match_not,
       matches_and, matches_or, matches_not⟩

/-! ## The search phase of `cli` (minitopic/minitopic.py, lines 223-236)

The loop over `entries` first skips entries whose status is `read` or
`removed` (so their titles are never searched), then evaluates
`and_or_not_match` on the title and keeps the entry when `is_match` holds,
preserving iteration order.  A `re.error` raised inside the loop propagates
out of `cli`. -/

def searchLoop (kA kO kN : List String) : List Entry → Except String (List Entry)
  | [] => .ok []
  | e :: rest =>
    if e.status == .read || e.status == .removed then
      searchLoop kA kO kN rest
    else
      match and_or_not_match e.title kA kO kN with
      | .error msg => .error msg
      | .ok r =>
        match searchLoop kA kO kN rest with
        | .error msg => .error msg
        | .ok tail => if r.is_match then .ok (e :: tail) else .ok tail

/-- The two concrete entries of the spec's matching scenario. -/
def entryQuarterly : Entry :=
  ⟨1, "Quarterly Report", "http://example.org/1", .unread, 0, "feed", "http://example.org/f"⟩

def entryWeekly : Entry :=
  ⟨2, "Weekly Digest", "http://example.org/2", .unread, 0, "feed", "http://example.org/f"⟩

/-! ## `SimpleCache` (utils/simple_cache.py)

The cache file holds a pickled record `{cached_time, data}`; the in-memory
object mirrors `lifetime`, `payload` and `cached_time`.  Timestamps and
timedeltas are embedded as integers (a totally ordered time line, e.g.
microseconds); `datetime` arithmetic only ever compares and subtracts here.
The Python guard `if not self.lifetime` is truthiness: it holds when
`lifetime` is `None` and also when it is the zero timedelta. -/

structure CacheData (α : Type) where
  cached_time : Int
  data : Option α
deriving DecidableEq, Repr

structure SimpleCache (α : Type) where
  lifetime : Option Int
  file : Option (CacheData α)
  cached_time : Int
  payload : Option α
deriving DecidableEq, Repr

/-- `SimpleCache.read` at wall-clock instant `now`: load the record and
refresh `cached_time`/`payload`; a missing file is first created by
`write(None)` (which stamps it with `now`). -/
def SimpleCache.readAt (c : SimpleCache α) (now : Int) : SimpleCache α :=
  match c.file with
  | some d => { c with cached_time := d.cached_time, payload := d.data }
  | none => { c with file := some ⟨now, none⟩, cached_time := now, payload := none }

/-- `SimpleCache.write` at wall-clock instant `now`: persist
`{cached_time: now, data: payload}` and re-read to refresh the in-memory
state. -/
def SimpleCache.write (c : SimpleCache α) (now : Int) (payload : Option α) :
    SimpleCache α :=
  ({ c with file := some ⟨now, payload⟩ } : SimpleCache α).readAt now

/-- `SimpleCache.is_expired` with reference time `time`. -/
def SimpleCache.is_expired (c : SimpleCache α) (time : Int) : Bool :=
  match c.lifetime with
  | none => false
  | some l => if l = 0 then false else decide (c.cached_time < time - l)

/-! ## `fetch_entries` (minitopic/minitopic.py, lines 128-165)

The remote source is a function from `(offset, limit)` to the response pair
`(total, entries)`.  The `while True` loop is embedded with explicit fuel
(`none` = the fuel ran out, i.e. the loop was still running); besides the
accumulated entries it records the `offset` argument of every request
issued.  State per iteration: `fetch_count` (also the next offset), the
accumulated entries, and the request log. -/

def fetchLoop (src : Nat → Nat → Nat × List α) (batch : Nat) :
    Nat → Nat → List α → List Nat → Option (List α × List Nat)
  | 0, _, _, _ => none
  | fuel + 1, count, acc, offs =>
    let response := src count batch
    let fetched := response.2
    let count2 := count + fetched.length
    let acc2 := acc ++ fetched
    let offs2 := offs ++ [count]
    if response.1 ≤ count2 then some (acc2, offs2)
    else fetchLoop src batch fuel count2 acc2 offs2

/-- `fetch_entries`, starting from `fetch_count = 0` with empty
accumulators. -/
def fetch_entries (src : Nat → Nat → Nat × List α) (batch fuel : Nat) :
    Option (List α × List Nat) :=
  fetchLoop src batch fuel 0 [] []

/-- The loop terminates on some finite fuel. -/
def FetchTerminates (src : Nat → Nat → Nat × List α) (batch : Nat) : Prop :=
  ∃ fuel, (fetch_entries src batch fuel).isSome

/-- A well-behaved paginated source backed by a fixed master list `L`:
`get_entries(offset, limit)` reports `total = L.length` and returns the
slice `L[offset : offset+limit]`. -/
def sliceSrc (L : List α) (offset limit : Nat) : Nat × List α :=
  (L.length, (L.drop offset).take limit)

/-- Number of requests the loop makes against a well-behaved source with
total `T` and batch size `b`: `⌈T/b⌉`, but at least one request. -/
def numCalls (T b : Nat) : Nat :=
  max 1 ((T + b - 1) / b)

/-- The request offsets against such a source: `0, b, 2b, ...`. -/
def expectedOffsets (T b : Nat) : List Nat :=
  (List.range (numCalls T b)).map (fun i => i * b)

/-! ## The highlight pass (minitopic/minitopic.py, lines 238-263)

`matches_and_start/end` and `matches_or_start/end` collect the span offsets
of the successful AND/OR matches; the `for idx, char in enumerate(title)`
loop then prepends at most one marker before each character — Python's
`match`/`case` with guards runs only the first case whose guard holds, in
the order AND-open, AND-close, OR-open, OR-close. -/

def matchStarts (ms : List (Option MatchSpan)) : List Nat :=
  (ms.filterMap id).map MatchSpan.start

def matchEnds (ms : List (Option MatchSpan)) : List Nat :=
  (ms.filterMap id).map MatchSpan.stop

/-- The rich markup tags; the built `formated_title` string is embedded as
its list of characters. -/
def tagAndOpen : List Char := "[keyword_and]".toList

def tagAndClose : List Char := "[/keyword_and]".toList

def tagOrOpen : List Char := "[keyword_or]".toList

def tagOrClose : List Char := "[/keyword_or]".toList

/-- The marker the `match idx:` statement emits before the character at
`idx` (empty when no case fires).  Python's `match`/`case` with guards runs
only the first case whose guard holds. -/
def highlightMarker (idx : Nat) (aS aE oS oE : List Nat) : List Char :=
  if idx ∈ aS then tagAndOpen
  else if idx ∈ aE then tagAndClose
  else if idx ∈ oS then tagOrOpen
  else if idx ∈ oE then tagOrClose
  else []

def formatTitleAux (aS aE oS oE : List Nat) : Nat → List Char → List Char
  | _, [] => []
  | idx, c :: rest =>
    highlightMarker idx aS aE oS oE ++ c :: formatTitleAux aS aE oS oE (idx + 1) rest

/-- The full `formated_title` computation of the rendering loop. -/
def formatTitle (title : String) (aS aE oS oE : List Nat) : List Char :=
  formatTitleAux aS aE oS oE 0 title.toList

/-- One marker per occurrence of `idx` in the offset list (the claim wants
every span's marker emitted, coinciding spans concatenated). -/
def specMarkers (xs : List Nat) (idx : Nat) (m : List Char) : List Char :=
  match xs with
  | [] => []
  | x :: rest => (if x = idx then m else []) ++ specMarkers rest idx m

/-- Renderer following the words of the claim instead of the code (for the
refinement comparison): at each character index, every open marker of a
span starting there is emitted before the character, and every close
marker of a span whose last covered position is that character (exclusive
end = idx + 1) is emitted after it, one marker per span occurrence,
AND-group markers before OR-group markers. -/
def formatTitleSpecAux (aS aE oS oE : List Nat) : Nat → List Char → List Char
  | _, [] => []
  | idx, c :: rest =>
    specMarkers aS idx tagAndOpen ++ specMarkers oS idx tagOrOpen
      ++ c :: (specMarkers aE (idx + 1) tagAndClose ++ specMarkers oE (idx + 1) tagOrClose
      ++ formatTitleSpecAux aS aE oS oE (idx + 1) rest)

def formatTitleSpec (title : String) (aS aE oS oE : List Nat) : List Char :=
  formatTitleSpecAux aS aE oS oE 0 title.toList

/-! ## `SimpleSetInFile` (minitopic/utils/wordset.py) and the marking step
(minitopic/minitopic.py, lines 279-302)

Local and remote mutations are recorded as an ordered trace of side
effects: each cache persist, each rewrite of the dictionary file, and the
remote bulk status update. -/

inductive SideEffect where
  | cacheWrite (payload : List Entry)
  | dictWrite (lines : List String)
  | remoteUpdate (entry_ids : List Nat) (status : EntryStatus)
deriving DecidableEq, Repr

structure SimpleSetInFile where
  lines : List String
deriving DecidableEq, Repr

/-- `SimpleSetInFile.append`: compare `line.lower()` against the lowered
existing lines; only when absent is the line appended and the file
rewritten. -/
def SimpleSetInFile.append (s : SimpleSetInFile) (line : String) :
    SimpleSetInFile × List SideEffect :=
  if lowerKey line ∈ s.lines.map lowerKey then (s, [])
  else
    let s2 : SimpleSetInFile := ⟨s.lines ++ [line]⟩
    (s2, [.dictWrite s2.lines])

/-- The `for word in words: user_dict.append(word)` loop, threading the
dictionary state and concatenating the emitted side effects in order. -/
def appendAll (s : SimpleSetInFile) : List String → SimpleSetInFile × List SideEffect
  | [] => (s, [])
  | w :: ws =>
    let r1 := s.append w
    let r2 := appendAll r1.1 ws
    (r2.1, r1.2 ++ r2.2)

/-- Whether the search loop keeps `e`: the entry is not skipped for status
and `and_or_not_match` on its title reports a match (an `Except.error`
cannot be reached from a completed search, so it counts as no match). -/
def entryMatchesB (kA kO kN : List String) (e : Entry) : Bool :=
  !(e.status == .read || e.status == .removed) &&
    (match and_or_not_match e.title kA kO kN with
     | .ok r => r.is_match
     | .error _ => false)

/-- The confirmed, non-dry-run marking step.  In the Python code `results`
holds references to the same dict objects as `entries`, so the loop
`for result in results: result["status"] = "read"` turns `entries` into the
map below; `cache.write(entries)` then persists that full payload,
`user_dict.append` runs over `keywords_and + keywords_or`, and finally
`client.update_entries(entry_ids=ids, status="read")` is called with the
ids collected from the matched entries. -/
def markingStep (dict : SimpleSetInFile) (entries : List Entry)
    (kA kO kN : List String) :
    List Entry × SimpleSetInFile × List SideEffect :=
  let matched := entryMatchesB kA kO kN
  let ids := (entries.filter matched).map Entry.id
  let entries2 := entries.map (fun e => if matched e then { e with status := EntryStatus.read } else e)
  let dictRun := appendAll dict (kA ++ kO)
  (entries2, dictRun.1,
    SideEffect.cacheWrite entries2 :: dictRun.2 ++ [SideEffect.remoteUpdate ids .read])

/-- The part of `cli` that runs once the user has confirmed (lines
281-302): construct `SimpleSetInFile(USER_DICT_PATH)` — whose `read` calls
`Path.read_text`, raising `FileNotFoundError` when the file is absent
(`dictFile = none`) — collect the ids, then either print (dry run) or run
the marking step.  The second component is the trace of side effects
actually performed. -/
def confirmedPhase (dictFile : Option (List String)) (dryrun : Bool)
    (entries : List Entry) (kA kO kN : List String) :
    Except String Unit × List SideEffect :=
  match dictFile with
  | none => (.error "FileNotFoundError", [])
  | some fileLines =>
    let user_dict : SimpleSetInFile := ⟨fileLines.map String.trim⟩
    if dryrun then (.ok (), [])
    else (.ok (), (markingStep user_dict entries kA kO kN).2.2)

/-! ## The fetch-and-cache plus search phases of `cli` (lines 195-236)

`cached` abstracts the outcome of the `try` block: `some l` means the cache
loaded a list payload that is not expired, `none` means any of its
assertions or the load failed.  `if (not entries) or force_fetch` is Python
truthiness again: an empty cached list also triggers a fetch.  The trace
records every remote `get_entries` request and the `cache.write(entries)`
that follows a fetch. -/

inductive RunEvent where
  | fetchCall (offset limit : Nat)
  | cacheSave (payload : List Entry)
deriving DecidableEq, Repr

def cliRun (cached : Option (List Entry)) (force_fetch : Bool)
    (src : Nat → Nat → Nat × List Entry) (batch fuel : Nat)
    (kA kO kN : List String) :
    Except String (List Entry) × List RunEvent :=
  let needFetch : Bool :=
    (match cached with | some l => l.isEmpty | none => true) || force_fetch
  if needFetch then
    match fetch_entries src batch fuel with
    | none => (.error "fetch loop still running", [])
    | some r =>
      (searchLoop kA kO kN r.1,
       r.2.map (fun o => RunEvent.fetchCall o batch) ++ [RunEvent.cacheSave r.1])
  else
    (searchLoop kA kO kN (cached.getD []), [])

/-! ## Derived forms used in the statements -/

/-- The list of match results for one pattern group, as the list
comprehension computes it. -/
def searchedList (s : String) (ps : List String) : List (Option MatchSpan) :=
  ps.map (fun keyword => reSearchCI keyword s)

/-- The record `and_or_not_match` produces once every pattern compiled. -/
def andOrNotModel (s : String) (pa po pn : List String) : AndOrNotResult :=
  ⟨(decide ((searchedList s pa).length = 0) || (searchedList s pa).all Option.isSome) &&
     (decide ((searchedList s po).length = 0) || (searchedList s po).any Option.isSome) &&
     (decide ((searchedList s pn).length = 0) || !((searchedList s pn).any Option.isSome)),
   searchedList s pa, searchedList s po, searchedList s pn⟩

/-! ## Concrete instances used in counterexamples and witnesses -/

/-- A cache whose lifetime is the zero timedelta (set, but falsy in
Python), written two time units before the reference instant 0. -/
def cacheZeroLifetime : SimpleCache Nat :=
  ⟨some 0, none, -1, none⟩

/-- A source whose reported total always exceeds the fetched count by 2
while every response carries exactly one entry. -/
def growSrc (offset _limit : Nat) : Nat × List Nat :=
  (offset + 2, [offset])

/-- A source with one entry in total that always returns that entry. -/
def constSrc (_offset _limit : Nat) : Nat × List Nat :=
  (1, [99])

/-- A source reporting five entries in total but always returning none. -/
def emptySrc (_offset _limit : Nat) : Nat × List Nat :=
  (5, [])

/-- An unread entry used in the malformed-pattern run. -/
def entryHello : Entry :=
  ⟨7, "Hello World", "http://example.org/7", .unread, 0, "feed", "http://example.org/f"⟩

/-! # Theorems -/

/-! ## Helper lemmas about the searched lists -/

theorem mapM_reSearchE_ok (s : String) :
    ∀ (ps : List String), (∀ p ∈ ps, regexWellFormed p = true) →
      ps.mapM (fun keyword => reSearchE keyword s) =
        .ok (ps.map (fun keyword => reSearchCI keyword s)) := by
  intro ps h
  induction ps with
  | nil => rfl
  | cons p rest ih =>
    have hp : regexWellFormed p = true := h p (List.mem_cons_self p rest)
    have hrest := ih (fun q hq => h q (List.mem_cons_of_mem p hq))
    rw [List.mapM_cons, hrest]
    show (reSearchE p s).bind _ = _
    rw [reSearchE, if_pos hp]
    rfl

theorem and_or_not_match_ok (s : String) (pa po pn : List String)
    (ha : ∀ p ∈ pa, regexWellFormed p = true)
    (ho : ∀ p ∈ po, regexWellFormed p = true)
    (hn : ∀ p ∈ pn, regexWellFormed p = true) :
    and_or_not_match s pa po pn = .ok (andOrNotModel s pa po pn) := by
  simp only [and_or_not_match, mapM_reSearchE_ok s pa ha, mapM_reSearchE_ok s po ho,
    mapM_reSearchE_ok s pn hn]
  rfl

theorem notAny_eq_allNot (L : List (Option MatchSpan)) :
    (!(L.any Option.isSome)) = L.all (fun x => !x.isSome) := by
  induction L with
  | nil => rfl
  | cons x xs ih => simp [List.any_cons, List.all_cons, Bool.not_or, ih]

theorem lengthZero_or_absorb (L : List (Option MatchSpan)) :
    (decide (L.length = 0) || L.all Option.isSome) = L.all Option.isSome := by
  cases L <;> simp

theorem andBool_iff (s : String) (pa : List String) :
    ((decide ((searchedList s pa).length = 0) ||
        (searchedList s pa).all Option.isSome) = true)
      ↔ ∀ p ∈ pa, (reSearchCI p s).isSome = true := by
  rw [lengthZero_or_absorb]
  simp [searchedList, List.all_map, Function.comp]

theorem orBool_iff (s : String) (po : List String) :
    ((decide ((searchedList s po).length = 0) ||
        (searchedList s po).any Option.isSome) = true)
      ↔ (po = [] ∨ ∃ p ∈ po, (reSearchCI p s).isSome = true) := by
  cases po with
  | nil => simp [searchedList]
  | cons x xs => simp [searchedList, List.any_map, Function.comp]

theorem notBool_iff (s : String) (pn : List String) :
    ((decide ((searchedList s pn).length = 0) ||
        !((searchedList s pn).any Option.isSome)) = true)
      ↔ ∀ p ∈ pn, ¬ (reSearchCI p s).isSome = true := by
  cases pn with
  | nil => simp [searchedList]
  | cons x xs =>
    simp [searchedList, List.any_map, Function.comp, List.any_eq_false,
      Bool.not_eq_true]

/-- C1.  `and_or_not_match` returns `is_match = AND ∧ OR ∧ NOT`: the AND
condition holds iff every pattern of `patterns_and` has a case-insensitive
first-occurrence match in the text (vacuously true for the empty list), the
OR condition iff at least one pattern of `patterns_or` matches (vacuously
true if empty), the NOT condition iff no pattern of `patterns_not` matches
(vacuously true if empty); and on the entries "Quarterly Report" /
"Weekly Digest" with AND=["report"], OR=[], NOT=["weekly"] only the first
entry matches. -/
theorem c1_and_or_not_match_boolean_logic :
    (∀ (s : String) (pa po pn : List String),
      (∀ p ∈ pa ++ po ++ pn, regexWellFormed p = true) →
      ∃ r, and_or_not_match s pa po pn = .ok r ∧
        (r.is_match = true ↔
          ((∀ p ∈ pa, (reSearchCI p s).isSome = true) ∧
           (po = [] ∨ ∃ p ∈ po, (reSearchCI p s).isSome = true) ∧
           (∀ p ∈ pn, ¬ (reSearchCI p s).isSome = true)))) ∧
    searchLoop ["report"] [] ["weekly"] [entryQuarterly, entryWeekly] =
      .ok [entryQuarterly] := by
  constructor
  · intro s pa po pn h
    have ha : ∀ p ∈ pa, regexWellFormed p = true := by
      intro p hp; exact h p (by simp [hp])
    have ho : ∀ p ∈ po, regexWellFormed p = true := by
      intro p hp; exact h p (by simp [hp])
    have hn : ∀ p ∈ pn, regexWellFormed p = true := by
      intro p hp; exact h p (by simp [hp])
    refine ⟨andOrNotModel s pa po pn, and_or_not_match_ok s pa po pn ha ho hn, ?_⟩
    show ((_ || _) && (_ || _) && (_ || _)) = true ↔ _
    rw [Bool.and_eq_true, Bool.and_eq_true, andBool_iff, orBool_iff, notBool_iff]
    exact ⟨fun x => ⟨x.1.1, x.1.2, x.2⟩, fun x => ⟨⟨x.1, x.2.1⟩, x.2.2⟩⟩
  · rfl

/-- Witness for C1 at the scenario input; the well-formedness hypothesis is
discharged by computation. -/
theorem c1_witness :
    ∃ r, and_or_not_match "Quarterly Report" ["report"] [] ["weekly"] = .ok r ∧
      (r.is_match = true ↔
        ((∀ p ∈ ["report"], (reSearchCI p "Quarterly Report").isSome = true) ∧
         (([] : List String) = [] ∨
            ∃ p ∈ ([] : List String),
              (reSearchCI p "Quarterly Report").isSome = true) ∧
         (∀ p ∈ ["weekly"], ¬ (reSearchCI p "Quarterly Report").isSome = true))) :=
  c1_and_or_not_match_boolean_logic.1 "Quarterly Report" ["report"] [] ["weekly"]
    (by decide)

/-- C2.  An entry whose status is not `unread` (that is, `read` or
`removed`) never appears among the search results, whatever the patterns
are. -/
theorem c2_only_unread_eligible :
    ∀ (entries : List Entry) (kA kO kN : List String) (res : List Entry)
      (e : Entry),
      searchLoop kA kO kN entries = .ok res → e ∈ res →
      e.status = EntryStatus.unread := by
  intro entries kA kO kN
  induction entries with
  | nil =>
    intro res e hrun hmem
    simp only [searchLoop] at hrun
    cases hrun
    simp at hmem
  | cons x rest ih =>
    intro res e hrun hmem
    simp only [searchLoop] at hrun
    by_cases hskip : (x.status == EntryStatus.read || x.status == EntryStatus.removed) = true
    · rw [if_pos hskip] at hrun
      exact ih res e hrun hmem
    · rw [if_neg hskip] at hrun
      rcases hm : and_or_not_match x.title kA kO kN with msg | r <;> rw [hm] at hrun
      · cases hrun
      · rcases ht : searchLoop kA kO kN rest with msg | tail <;> rw [ht] at hrun
        · cases hrun
        · dsimp only at hrun
          by_cases hmatch : r.is_match = true
          · rw [if_pos hmatch] at hrun
            cases hrun
            rcases List.mem_cons.mp hmem with he | he
            · rw [he]
              rcases hst : x.status with _ | _ | _
              · rfl
              · rw [hst] at hskip; simp at hskip
              · rw [hst] at hskip; simp at hskip
            · exact ih tail e ht he
          · rw [if_neg hmatch] at hrun
            injection hrun with h2
            exact ih tail e ht (h2 ▸ hmem)

/-- Witness for C2: in the scenario search the sole result is the unread
"Quarterly Report" entry. -/
theorem c2_witness : entryQuarterly.status = EntryStatus.unread :=
  c2_only_unread_eligible [entryQuarterly, entryWeekly] ["report"] [] ["weekly"]
    [entryQuarterly] entryQuarterly (by rfl) (by simp)

/-- Counterexample to C3.  The claim predicts `is_expired = true` whenever
the lifetime is set and `cached_time < reference_time - lifetime`; but
`if not self.lifetime` is a truthiness test, so a lifetime equal to the
zero timedelta (set, yet falsy) makes `is_expired` return `false` even
though `cached_time = -1 < 0 - 0 = reference_time - lifetime`. -/
theorem c3_counterexample :
    cacheZeroLifetime.is_expired 0 = false ∧
    cacheZeroLifetime.lifetime = some 0 ∧
    cacheZeroLifetime.cached_time < 0 - (0 : Int) := by
  refine ⟨rfl, rfl, ?_⟩
  decide

/-- C3 as amended.  `is_expired` returns true iff the lifetime is set to a
nonzero duration and `cached_time < reference_time - lifetime`; when the
lifetime is absent — or zero, which Python truthiness treats the same —
it returns false for any `cached_time`.  In particular a cache written two
days ago with a one-day lifetime is expired. -/
theorem c3_is_expired_amended :
    (∀ (lt : Option Int) (f : Option (CacheData Nat)) (ct p_now : Int)
       (p : Option Nat),
      (SimpleCache.mk lt f ct p).is_expired p_now = true ↔
        ∃ l, lt = some l ∧ l ≠ 0 ∧ ct < p_now - l) ∧
    (∀ now : Int,
      (SimpleCache.mk (some 86400) none (now - 172800) none :
          SimpleCache Nat).is_expired now = true) := by
  constructor
  · intro lt f ct now p
    cases lt with
    | none => simp [SimpleCache.is_expired]
    | some l =>
      by_cases hl : l = 0
      · subst hl
        simp [SimpleCache.is_expired]
      · simp [SimpleCache.is_expired, hl]
  · intro now
    simp only [SimpleCache.is_expired]
    rw [if_neg (by norm_num)]
    simp only [decide_eq_true_eq]
    omega

/-- C8.  Writing a payload and reading the cache back yields an equal
payload, and the recorded `cached_time` is the instant the write captured
with `datetime.now()`, which lies inside the write-read window whenever the
clock is monotone (`t0` = start of the write, `t1` = the `datetime.now()`
call inside `write`, `t2` = completion of the re-read). -/
theorem c8_cache_write_read_roundtrip :
    ∀ (α : Type) (c : SimpleCache α) (p : Option α) (t0 t1 t2 : Int),
      t0 ≤ t1 → t1 ≤ t2 →
      ((c.write t1 p).payload = p ∧
       ((c.write t1 p).readAt t2).payload = p ∧
       t0 ≤ (c.write t1 p).cached_time ∧
       (c.write t1 p).cached_time ≤ t2) := by
  intro α c p t0 t1 t2 h01 h12
  refine ⟨rfl, rfl, ?_, ?_⟩ <;>
    simp only [SimpleCache.write, SimpleCache.readAt] <;> omega

/-- Witness for C8 on a concrete cache, payload and window `0 ≤ 1 ≤ 2`. -/
theorem c8_witness :
    ((SimpleCache.mk none none 0 none : SimpleCache Nat).write 1 (some 7)).payload = some 7 ∧
    (((SimpleCache.mk none none 0 none : SimpleCache Nat).write 1 (some 7)).readAt 2).payload = some 7 ∧
    (0 : Int) ≤ ((SimpleCache.mk none none 0 none : SimpleCache Nat).write 1 (some 7)).cached_time ∧
    ((SimpleCache.mk none none 0 none : SimpleCache Nat).write 1 (some 7)).cached_time ≤ 2 :=
  c8_cache_write_read_roundtrip Nat ⟨none, none, 0, none⟩ (some 7) 0 1 2
    (by decide) (by decide)

/-- C10.  With the dictionary file absent, the confirmed phase raises the
uncaught file-not-found error while constructing `SimpleSetInFile` — before
the dry-run branch, so in both modes — and its side-effect trace is empty:
no status mutation, no cache write, no dictionary write, no remote
update. -/
theorem c10_missing_dict_file_aborts_cleanly :
    ∀ (dryrun : Bool) (entries : List Entry) (kA kO kN : List String),
      confirmedPhase none dryrun entries kA kO kN =
        (.error "FileNotFoundError", []) := by
  intro dryrun entries kA kO kN
  rfl

/-! ## C4: the highlight pass -/

theorem specMarkers_of_not_mem (m : List Char) (idx : Nat) :
    ∀ xs : List Nat, idx ∉ xs → specMarkers xs idx m = [] := by
  intro xs
  induction xs with
  | nil => intro _; rfl
  | cons x rest ih =>
    intro h
    simp only [specMarkers]
    rw [if_neg (fun he => (List.ne_of_not_mem_cons h) he.symm),
      ih (List.not_mem_of_not_mem_cons h)]
    rfl

theorem specMarkers_of_nodup_mem (m : List Char) (idx : Nat) :
    ∀ xs : List Nat, xs.Nodup → idx ∈ xs → specMarkers xs idx m = m := by
  intro xs
  induction xs with
  | nil => intro _ h; simp at h
  | cons x rest ih =>
    intro hnd hmem
    have hx : x ∉ rest := (List.nodup_cons.mp hnd).1
    simp only [specMarkers]
    rcases List.mem_cons.mp hmem with he | he
    · rw [if_pos he.symm, specMarkers_of_not_mem m idx rest (he ▸ hx),
        List.append_nil]
    · rw [if_neg (fun hxe => hx (by rw [hxe]; exact he)),
        ih (List.nodup_cons.mp hnd).2 he]
      rfl

/-- Under span-disjointness, the single marker the code emits at `idx`
coincides with the concatenation of all applicable claim-side markers. -/
theorem markerAgree (aS aE oS oE : List Nat)
    (hnS : aS.Nodup) (hnE : aE.Nodup) (hnOS : oS.Nodup) (hnOE : oE.Nodup)
    (hd1 : ∀ x ∈ aS, x ∉ aE) (hd2 : ∀ x ∈ aS, x ∉ oS) (hd3 : ∀ x ∈ aS, x ∉ oE)
    (hd4 : ∀ x ∈ aE, x ∉ oS) (hd5 : ∀ x ∈ aE, x ∉ oE) (hd6 : ∀ x ∈ oS, x ∉ oE)
    (idx : Nat) :
    specMarkers aE idx tagAndClose ++ specMarkers oE idx tagOrClose ++
      (specMarkers aS idx tagAndOpen ++ specMarkers oS idx tagOrOpen) =
      highlightMarker idx aS aE oS oE := by
  by_cases hA : idx ∈ aS
  · rw [highlightMarker, if_pos hA,
      specMarkers_of_not_mem _ _ aE (hd1 idx hA),
      specMarkers_of_not_mem _ _ oE (hd3 idx hA),
      specMarkers_of_not_mem _ _ oS (hd2 idx hA),
      specMarkers_of_nodup_mem _ _ aS hnS hA]
    simp
  · by_cases hE : idx ∈ aE
    · rw [highlightMarker, if_neg hA, if_pos hE,
        specMarkers_of_not_mem _ _ oE (hd5 idx hE),
        specMarkers_of_not_mem _ _ oS (hd4 idx hE),
        specMarkers_of_not_mem _ _ aS hA,
        specMarkers_of_nodup_mem _ _ aE hnE hE]
      simp
    · by_cases hO : idx ∈ oS
      · rw [highlightMarker, if_neg hA, if_neg hE, if_pos hO,
          specMarkers_of_not_mem _ _ oE (hd6 idx hO),
          specMarkers_of_not_mem _ _ aS hA,
          specMarkers_of_not_mem _ _ aE hE,
          specMarkers_of_nodup_mem _ _ oS hnOS hO]
        simp
      · by_cases hOE : idx ∈ oE
        · rw [highlightMarker, if_neg hA, if_neg hE, if_neg hO, if_pos hOE,
            specMarkers_of_not_mem _ _ aS hA,
            specMarkers_of_not_mem _ _ aE hE,
            specMarkers_of_not_mem _ _ oS hO,
            specMarkers_of_nodup_mem _ _ oE hnOE hOE]
          simp
        · rw [highlightMarker, if_neg hA, if_neg hE, if_neg hO, if_neg hOE,
            specMarkers_of_not_mem _ _ aS hA,
            specMarkers_of_not_mem _ _ aE hE,
            specMarkers_of_not_mem _ _ oS hO,
            specMarkers_of_not_mem _ _ oE hOE]
          rfl

/-- Shift identity relating the claim-side renderer (closes trail the
character) to the code-side renderer (closes precede the next character):
the pending closes at the window start plus the claim rendering equal the
code rendering plus the pending closes at the window end. -/
theorem formatTitleSpecAux_shift (aS aE oS oE : List Nat)
    (hnS : aS.Nodup) (hnE : aE.Nodup) (hnOS : oS.Nodup) (hnOE : oE.Nodup)
    (hd1 : ∀ x ∈ aS, x ∉ aE) (hd2 : ∀ x ∈ aS, x ∉ oS) (hd3 : ∀ x ∈ aS, x ∉ oE)
    (hd4 : ∀ x ∈ aE, x ∉ oS) (hd5 : ∀ x ∈ aE, x ∉ oE) (hd6 : ∀ x ∈ oS, x ∉ oE) :
    ∀ (l : List Char) (i : Nat),
      specMarkers aE i tagAndClose ++ specMarkers oE i tagOrClose ++
          formatTitleSpecAux aS aE oS oE i l =
        formatTitleAux aS aE oS oE i l ++
          (specMarkers aE (i + l.length) tagAndClose ++
           specMarkers oE (i + l.length) tagOrClose) := by
  intro l
  induction l with
  | nil =>
    intro i
    simp [formatTitleSpecAux, formatTitleAux]
  | cons c rest ih =>
    intro i
    have hmark := markerAgree aS aE oS oE hnS hnE hnOS hnOE hd1 hd2 hd3 hd4 hd5 hd6 i
    have hlen : i + (c :: rest).length = (i + 1) + rest.length := by
      simp [Nat.add_comm, Nat.add_assoc, Nat.add_left_comm]
    rw [hlen]
    simp only [formatTitleSpecAux, formatTitleAux, ← hmark, List.append_assoc,
      List.cons_append]
    rw [← ih (i + 1)]
    simp [List.append_assoc]

/-- Counterexample to C4.  Two AND patterns ("ab" and "aB") both match
"abc" at span (0,2); the claim demands that both open markers and both
close markers be emitted (concatenated, no merging or dropping), but the
code's first-matching-case scan emits only one open marker at offset 0 and
one close marker at offset 2. -/
theorem c4_counterexample :
    and_or_not_match "abc" ["ab", "aB"] [] [] =
      .ok ⟨true, [some ⟨0, 2⟩, some ⟨0, 2⟩], [], []⟩ ∧
    matchStarts [some ⟨0, 2⟩, some ⟨0, 2⟩] = [0, 0] ∧
    matchEnds [some ⟨0, 2⟩, some ⟨0, 2⟩] = [2, 2] ∧
    formatTitle "abc" [0, 0] [2, 2] [] [] = "[keyword_and]ab[/keyword_and]c".toList ∧
    formatTitleSpec "abc" [0, 0] [2, 2] [] [] =
      "[keyword_and][keyword_and]ab[/keyword_and][/keyword_and]c".toList ∧
    formatTitle "abc" [0, 0] [2, 2] [] [] ≠
      formatTitleSpec "abc" [0, 0] [2, 2] [] [] := by
  refine ⟨by rfl, by rfl, by rfl, by rfl, by rfl, ?_⟩
  decide

/-- C4 as amended.  The highlight pass is a single left-to-right scan that
emits, immediately before each character, at most ONE marker, chosen by the
first matching case in the fixed order AND-open, AND-close, OR-open,
OR-close; coinciding markers beyond the first are dropped (not
concatenated), as is any close marker whose offset equals the title length.
When the four offset lists are duplicate-free, pairwise disjoint, and no
close offset is 0 or the title length, this rendering coincides with the
claim's all-markers rendering. -/
theorem c4_highlight_scan_amended :
    (∀ (title : String) (aS aE oS oE : List Nat),
      formatTitle title aS aE oS oE =
        (title.toList.enum).flatMap
          (fun pr => highlightMarker pr.1 aS aE oS oE ++ [pr.2])) ∧
    (∀ (title : String) (aS aE oS oE : List Nat),
      aS.Nodup → aE.Nodup → oS.Nodup → oE.Nodup →
      (∀ x ∈ aS, x ∉ aE) → (∀ x ∈ aS, x ∉ oS) → (∀ x ∈ aS, x ∉ oE) →
      (∀ x ∈ aE, x ∉ oS) → (∀ x ∈ aE, x ∉ oE) → (∀ x ∈ oS, x ∉ oE) →
      0 ∉ aE → 0 ∉ oE → title.length ∉ aE → title.length ∉ oE →
      formatTitle title aS aE oS oE = formatTitleSpec title aS aE oS oE) := by
  constructor
  · intro title aS aE oS oE
    rw [formatTitle]
    have general : ∀ (l : List Char) (i : Nat),
        formatTitleAux aS aE oS oE i l =
          (l.enumFrom i).flatMap
            (fun pr => highlightMarker pr.1 aS aE oS oE ++ [pr.2]) := by
      intro l
      induction l with
      | nil => intro i; rfl
      | cons c rest ih =>
        intro i
        simp [formatTitleAux, List.enumFrom, ih (i + 1)]
    rw [general, List.enum]
  · intro title aS aE oS oE hnS hnE hnOS hnOE hd1 hd2 hd3 hd4 hd5 hd6 h0E h0O hLE hLO
    have := formatTitleSpecAux_shift aS aE oS oE hnS hnE hnOS hnOE
      hd1 hd2 hd3 hd4 hd5 hd6 title.toList 0
    rw [formatTitle, formatTitleSpec]
    have hlen : title.toList.length = title.length := rfl
    rw [specMarkers_of_not_mem _ _ aE h0E, specMarkers_of_not_mem _ _ oE h0O] at this
    rw [Nat.zero_add, hlen, specMarkers_of_not_mem _ _ aE hLE,
      specMarkers_of_not_mem _ _ oE hLO] at this
    simpa using this.symm

/-- Witness for the amended C4 on disjoint in-range spans: span (0,1) on
"ab" renders identically under the code scan and the claim-side
rendering. -/
theorem c4_witness :
    formatTitle "ab" [0] [1] [] [] = formatTitleSpec "ab" [0] [1] [] [] :=
  c4_highlight_scan_amended.2 "ab" [0] [1] [] []
    (by decide) (by decide) (by decide) (by decide)
    (by decide) (by decide) (by decide) (by decide) (by decide) (by decide)
    (by decide) (by decide) (by decide) (by decide)

/-! ## C5 and C9: the pagination loop -/

/-- Main loop invariant against a well-behaved slice source: starting at
`fetch_count = c` with enough fuel, the loop returns the rest of the master
list and logs requests at `c, c + b, c + 2b, ...`. -/
theorem fetchLoop_slice (L : List Nat) (b : Nat) (hb : 1 ≤ b) :
    ∀ (fuel : Nat) (c : Nat) (acc : List Nat) (offs : List Nat),
      c < L.length → L.length ≤ c + fuel * b →
      fetchLoop (sliceSrc L) b fuel c acc offs =
        some (acc ++ L.drop c,
          offs ++ (List.range ((L.length - c + b - 1) / b)).map (fun i => c + i * b)) := by
  intro fuel
  induction fuel with
  | zero =>
    intro c acc offs hc hfuel
    exact absurd hfuel (by simpa using Nat.not_le.mpr hc)
  | succ n ih =>
    intro c acc offs hc hfuel
    simp only [fetchLoop, sliceSrc]
    have hlen : ((L.drop c).take b).length = min b (L.length - c) := by
      simp [List.length_take, List.length_drop]
    by_cases hlast : L.length ≤ c + b
    · have htake : (L.drop c).take b = L.drop c :=
        List.take_of_length_le (by simp [List.length_drop]; omega)
      have hcnt : c + ((L.drop c).take b).length = L.length := by
        rw [hlen]; omega
      rw [if_pos (le_of_eq hcnt.symm)]
      have hdiv : (L.length - c + b - 1) / b = 1 :=
        Nat.div_eq_of_lt_le (by omega) (by omega)
      rw [htake, hdiv]
      simp [show List.range 1 = [0] from rfl]
    · have htklen : ((L.drop c).take b).length = b := by rw [hlen]; omega
      have hstep : ¬ (L.length ≤ c + ((L.drop c).take b).length) := by
        rw [htklen]; omega
      rw [if_neg hstep]
      have hfuel2 : L.length ≤ (c + ((L.drop c).take b).length) + n * b := by
        rw [htklen]
        rw [Nat.succ_mul] at hfuel
        omega
      rw [ih (c + ((L.drop c).take b).length) (acc ++ (L.drop c).take b)
        (offs ++ [c]) (by rw [htklen]; omega) hfuel2]
      rw [htklen]
      have hjoin : (acc ++ (L.drop c).take b) ++ L.drop (c + b) = acc ++ L.drop c := by
        rw [List.append_assoc]
        have hdd : L.drop (c + b) = (L.drop c).drop b := by
          rw [List.drop_drop, Nat.add_comm]
        rw [hdd, List.take_append_drop]
      rw [hjoin]
      have hk : (L.length - c + b - 1) / b = ((L.length - (c + b) + b - 1) / b) + 1 := by
        have h1 : L.length - c + b - 1 = (L.length - (c + b) + b - 1) + b := by omega
        rw [h1, Nat.add_div_right _ (by omega)]
      rw [hk, List.range_succ_eq_map, List.map_cons, List.map_map]
      have hfun : (List.range ((L.length - (c + b) + b - 1) / b)).map
            ((fun i => c + i * b) ∘ Nat.succ) =
          (List.range ((L.length - (c + b) + b - 1) / b)).map
            (fun i => c + b + i * b) := by
        refine List.map_congr_left ?_
        intro a _
        simp only [Function.comp_apply, Nat.succ_mul, Nat.succ_eq_add_one]
        ring
      rw [hfun]
      simp [List.append_assoc]

/-- C5.  Against a well-behaved source backed by a fixed master list,
`fetch_entries` requests at offsets equal to the cumulative count fetched
so far (`0, b, 2b, ...`), stops as soon as the count reaches the reported
total (handling a final partial batch), and returns the whole list in
order; in particular with total 250 and batch size 100 it makes exactly
three requests at offsets 0, 100 and 200 and yields all 250 entries. -/
theorem c5_pagination :
    (∀ (L : List Nat) (b : Nat), 1 ≤ b →
      fetch_entries (sliceSrc L) b (L.length + 1) =
        some (L, expectedOffsets L.length b)) ∧
    fetch_entries (sliceSrc (List.range 250)) 100 251 =
      some (List.range 250, [0, 100, 200]) := by
  have general : ∀ (L : List Nat) (b : Nat), 1 ≤ b →
      fetch_entries (sliceSrc L) b (L.length + 1) =
        some (L, expectedOffsets L.length b) := by
    intro L b hb
    rcases L with _ | ⟨x, rest⟩
    · show fetchLoop (sliceSrc []) b 1 0 [] [] = _
      simp only [fetchLoop, sliceSrc]
      rw [if_pos (by simp)]
      have hdiv0 : (0 + b - 1) / b = 0 := Nat.div_eq_of_lt (by omega)
      have hnum : numCalls 0 b = 1 := by
        rw [numCalls, hdiv0]
        exact Nat.max_eq_left (Nat.zero_le 1)
      have hoffs : expectedOffsets 0 b = [0] := by
        simp [expectedOffsets, hnum, show List.range 1 = [0] from rfl]
      simp [hoffs]
    · have hfl : (x :: rest).length ≤ 0 + ((x :: rest).length + 1) * b := by
        have h1 : ((x :: rest).length + 1) * 1 ≤ ((x :: rest).length + 1) * b :=
          Nat.mul_le_mul_left _ hb
        omega
      rw [fetch_entries, fetchLoop_slice (x :: rest) b hb ((x :: rest).length + 1) 0 [] []
        (by simp) hfl]
      have hco : expectedOffsets (x :: rest).length b =
          (List.range (((x :: rest).length - 0 + b - 1) / b)).map (fun i => 0 + i * b) := by
        simp only [expectedOffsets, numCalls, Nat.sub_zero, Nat.zero_add]
        have hge : 1 ≤ ((x :: rest).length + b - 1) / b :=
          Nat.le_div_iff_mul_le (by omega) |>.mpr
            (by
              have hl : (x :: rest).length = rest.length + 1 := List.length_cons x rest
              omega)
        rw [Nat.max_eq_right hge]
      rw [hco]
      simp
  refine ⟨general, ?_⟩
  have h := general (List.range 250) 100 (by omega)
  rw [List.length_range] at h
  have hoff : expectedOffsets 250 100 = [0, 100, 200] := by decide
  rw [hoff] at h
  exact h

/-- Witness for C5 on a small master list: three entries, batch size two,
requests at offsets 0 and 2. -/
theorem c5_witness :
    fetch_entries (sliceSrc [10, 20, 30]) 2 4 = some ([10, 20, 30], [0, 2]) := by
  have h := c5_pagination.1 [10, 20, 30] 2 (by omega)
  exact h.trans (by decide)

/-- Counterexample to C9.  Its first sentence claims termination whenever
every below-total response is nonempty; `growSrc` always returns one entry
yet always reports `total = count + 2`, and because `fetch_total` is
re-read from every response the loop never stops. -/
theorem c9_counterexample : ¬ FetchTerminates growSrc 1 := by
  have key : ∀ (fuel c : Nat) (acc offs : List Nat),
      fetchLoop growSrc 1 fuel c acc offs = none := by
    intro fuel
    induction fuel with
    | zero => intro c acc offs; rfl
    | succ n ih =>
      intro c acc offs
      simp only [fetchLoop, growSrc]
      rw [if_neg (by simp)]
      exact ih _ _ _
  rintro ⟨fuel, hf⟩
  rw [fetch_entries, key] at hf
  simp at hf

/-- C9 as amended.  The loop terminates whenever the source reports one
fixed total across responses and every response issued while the count is
below that total is nonempty; and whenever some reached state receives an
empty response while the reported total still exceeds the count, the loop
never terminates — its count (hence offset) no longer advances. -/
theorem c9_fetch_termination_amended :
    (∀ (src : Nat → Nat → Nat × List Nat) (b T : Nat),
      (∀ c, (src c b).1 = T) →
      (∀ c, c < T → (src c b).2 ≠ []) →
      FetchTerminates src b) ∧
    (∀ (src : Nat → Nat → Nat × List Nat) (b c : Nat),
      (src c b).2 = [] → c < (src c b).1 →
      ∀ (fuel : Nat) (acc : List Nat) (offs : List Nat),
        fetchLoop src b fuel c acc offs = none) := by
  constructor
  · intro src b T hT hne
    have key : ∀ (n c : Nat) (acc offs : List Nat), T ≤ c + n →
        (fetchLoop src b (n + 1) c acc offs).isSome := by
      intro n
      induction n with
      | zero =>
        intro c acc offs hc
        simp only [fetchLoop]
        rw [if_pos (by rw [hT]; omega)]
        rfl
      | succ n ih =>
        intro c acc offs hc
        simp only [fetchLoop]
        by_cases hstop : (src c b).1 ≤ c + (src c b).2.length
        · rw [if_pos hstop]; rfl
        · rw [if_neg hstop]
          have hlt : c + (src c b).2.length < T := by
            rw [hT] at hstop; omega
          have hpos : 1 ≤ (src c b).2.length := by
            have : (src c b).2 ≠ [] := hne c (by omega)
            have := List.length_pos.mpr this
            omega
          exact ih _ _ _ (by omega)
    exact ⟨T + 1, key T 0 [] [] (by omega)⟩
  · intro src b c hempty hlt
    intro fuel
    induction fuel with
    | zero => intro acc offs; rfl
    | succ n ih =>
      intro acc offs
      simp only [fetchLoop, hempty]
      rw [if_neg (by simp; omega)]
      simpa using ih acc (offs ++ [c])

/-- Witness for the amended C9: a constant one-entry source terminates; a
source that reports five entries but returns none is stuck forever from
the start. -/
theorem c9_witness :
    FetchTerminates constSrc 1 ∧ fetchLoop emptySrc 1 7 0 [] [] = none :=
  ⟨c9_fetch_termination_amended.1 constSrc 1 1 (fun _ => rfl)
      (fun _ _ => by simp [constSrc]),
   c9_fetch_termination_amended.2 emptySrc 1 0 rfl (by decide) 7 [] []⟩

/-! ## C7: malformed patterns -/

theorem mapM_reSearchE_error (s : String) :
    ∀ (ps : List String), (∃ p ∈ ps, regexWellFormed p = false) →
      ps.mapM (fun keyword => reSearchE keyword s) = .error "re.error" := by
  intro ps h
  induction ps with
  | nil => simp at h
  | cons p rest ih =>
    rcases h with ⟨q, hq, hbad⟩
    rcases List.mem_cons.mp hq with he | he
    · subst he
      by_cases hp : regexWellFormed q = true
      · rw [hp] at hbad; cases hbad
      · rw [List.mapM_cons]
        show (reSearchE q s).bind _ = _
        rw [reSearchE, if_neg hp]
        rfl
    · by_cases hp : regexWellFormed p = true
      · rw [List.mapM_cons]
        show (reSearchE p s).bind _ = _
        rw [reSearchE, if_pos hp, ih ⟨q, he, hbad⟩]
        rfl
      · rw [List.mapM_cons]
        show (reSearchE p s).bind _ = _
        rw [reSearchE, if_neg hp]
        rfl

theorem and_or_not_match_error (s : String) (pa po pn : List String)
    (h : ∃ p ∈ pa ++ po ++ pn, regexWellFormed p = false) :
    and_or_not_match s pa po pn = .error "re.error" := by
  rcases h with ⟨q, hq, hbad⟩
  simp only [List.append_assoc, List.mem_append] at hq
  by_cases hA : ∀ p ∈ pa, regexWellFormed p = true
  · by_cases hO : ∀ p ∈ po, regexWellFormed p = true
    · have hqn : q ∈ pn := by
        rcases hq with hq | hq | hq
        · rw [hA q hq] at hbad; cases hbad
        · rw [hO q hq] at hbad; cases hbad
        · exact hq
      simp only [and_or_not_match, mapM_reSearchE_ok s pa hA,
        mapM_reSearchE_ok s po hO, mapM_reSearchE_error s pn ⟨q, hqn, hbad⟩]
      rfl
    · push_neg at hO
      rcases hO with ⟨q2, hq2, hbad2⟩
      simp only [and_or_not_match, mapM_reSearchE_ok s pa hA,
        mapM_reSearchE_error s po ⟨q2, hq2, by simpa using hbad2⟩]
      rfl
  · push_neg at hA
    rcases hA with ⟨q2, hq2, hbad2⟩
    simp only [and_or_not_match,
      mapM_reSearchE_error s pa ⟨q2, hq2, by simpa using hbad2⟩]
    rfl

/-- Counterexample to C7.  With an empty cache, one unread remote entry and
the malformed AND pattern "(", the run performs a remote fetch request and
a cache write and only then fails with the pattern error — the claim says
no fetch call and no cache write may precede the rejection. -/
theorem c7_counterexample :
    cliRun none false (sliceSrc [entryHello]) 100 5 ["("] [] [] =
      (.error "re.error",
       [RunEvent.fetchCall 0 100, RunEvent.cacheSave [entryHello]]) := by
  rfl

/-- C7 as amended.  A malformed pattern is rejected only in the search
phase, when the first status-eligible entry's title is searched: the search
loop fails with the regex error whenever some pattern is ill-formed and at
least one eligible entry exists, and in a cache-miss run the remote fetch
requests and the cache write have already happened by then, so the run
fails with exactly those events on its trace. -/
theorem c7_malformed_pattern_amended :
    (∀ (entries : List Entry) (kA kO kN : List String),
      (∃ p ∈ kA ++ kO ++ kN, regexWellFormed p = false) →
      (∃ e ∈ entries, (e.status == EntryStatus.read ||
          e.status == EntryStatus.removed) = false) →
      searchLoop kA kO kN entries = .error "re.error") ∧
    (∀ (force : Bool) (src : Nat → Nat → Nat × List Entry)
       (batch fuel : Nat) (kA kO kN : List String)
       (fetched : List Entry) (offs : List Nat),
      fetch_entries src batch fuel = some (fetched, offs) →
      (∃ p ∈ kA ++ kO ++ kN, regexWellFormed p = false) →
      (∃ e ∈ fetched, (e.status == EntryStatus.read ||
          e.status == EntryStatus.removed) = false) →
      cliRun none force src batch fuel kA kO kN =
        (.error "re.error",
         offs.map (fun o => RunEvent.fetchCall o batch) ++
           [RunEvent.cacheSave fetched])) := by
  have searchPart : ∀ (entries : List Entry) (kA kO kN : List String),
      (∃ p ∈ kA ++ kO ++ kN, regexWellFormed p = false) →
      (∃ e ∈ entries, (e.status == EntryStatus.read ||
          e.status == EntryStatus.removed) = false) →
      searchLoop kA kO kN entries = .error "re.error" := by
    intro entries kA kO kN hbad
    induction entries with
    | nil => intro h; simp at h
    | cons x rest ih =>
      intro h
      by_cases hskip : (x.status == EntryStatus.read ||
          x.status == EntryStatus.removed) = true
      · have hrest : ∃ e ∈ rest, (e.status == EntryStatus.read ||
            e.status == EntryStatus.removed) = false := by
          rcases h with ⟨e, he, helig⟩
          rcases List.mem_cons.mp he with heq | heq
          · rw [heq] at helig
            rw [helig] at hskip
            cases hskip
          · exact ⟨e, heq, helig⟩
        simp only [searchLoop]
        rw [if_pos hskip]
        exact ih hrest
      · simp only [searchLoop]
        rw [if_neg hskip, and_or_not_match_error x.title kA kO kN hbad]
  refine ⟨searchPart, ?_⟩
  intro force src batch fuel kA kO kN fetched offs hfetch hbad helig
  have hne : cliRun none force src batch fuel kA kO kN =
      (match fetch_entries src batch fuel with
       | none => (.error "fetch loop still running", [])
       | some r =>
         (searchLoop kA kO kN r.1,
          r.2.map (fun o => RunEvent.fetchCall o batch) ++
            [RunEvent.cacheSave r.1])) := rfl
  rw [hne, hfetch]
  dsimp only
  rw [searchPart fetched kA kO kN hbad helig]

/-- Witness for the amended C7: searching one unread entry with the
ill-formed NOT pattern ")(" fails with the regex error. -/
theorem c7_witness :
    searchLoop [] [] [")("] [entryHello] = .error "re.error" :=
  c7_malformed_pattern_amended.1 [entryHello] [] [] [")("]
    (by decide) (by decide)

/-! ## C6: the marking step -/

theorem appendAll_events_dictWrite (ws : List String) :
    ∀ (s : SimpleSetInFile), ∀ ev ∈ (appendAll s ws).2,
      ∃ lines, ev = SideEffect.dictWrite lines := by
  induction ws with
  | nil => intro s ev hev; simp [appendAll] at hev
  | cons w rest ih =>
    intro s ev hev
    simp only [appendAll] at hev
    rcases List.mem_append.mp hev with h | h
    · rw [SimpleSetInFile.append] at h
      by_cases hc : lowerKey w ∈ s.lines.map lowerKey
      · rw [if_pos hc] at h; simp at h
      · rw [if_neg hc] at h
        simp only [List.mem_singleton] at h
        exact ⟨_, h⟩
    · exact ih _ ev h

theorem append_lines_cases (s : SimpleSetInFile) (w : String) :
    (s.append w).1.lines = s.lines ∨ (s.append w).1.lines = s.lines ++ [w] := by
  rw [SimpleSetInFile.append]
  by_cases hc : lowerKey w ∈ s.lines.map lowerKey
  · rw [if_pos hc]; exact Or.inl rfl
  · rw [if_neg hc]; exact Or.inr rfl

theorem appendAll_lowerMem_mono (ws : List String) :
    ∀ (s : SimpleSetInFile) (x : List Char), x ∈ s.lines.map lowerKey →
      x ∈ (appendAll s ws).1.lines.map lowerKey := by
  induction ws with
  | nil => intro s x hx; exact hx
  | cons w rest ih =>
    intro s x hx
    simp only [appendAll]
    refine ih _ x ?_
    rcases append_lines_cases s w with h | h <;> rw [h]
    · exact hx
    · simp only [List.map_append, List.mem_append]
      exact Or.inl hx

theorem appendAll_adds (ws : List String) :
    ∀ (s : SimpleSetInFile), ∀ w ∈ ws,
      lowerKey w ∈ (appendAll s ws).1.lines.map lowerKey := by
  induction ws with
  | nil => intro s w hw; simp at hw
  | cons u rest ih =>
    intro s w hw
    rcases List.mem_cons.mp hw with he | he
    · subst he
      simp only [appendAll]
      refine appendAll_lowerMem_mono rest _ (lowerKey w) ?_
      rw [SimpleSetInFile.append]
      by_cases hc : lowerKey w ∈ s.lines.map lowerKey
      · rw [if_pos hc]; exact hc
      · rw [if_neg hc]
        simp
    · simp only [appendAll]
      exact ih _ w he

theorem appendAll_count_preserved (ws : List String) :
    ∀ (s : SimpleSetInFile) (x : List Char), x ∈ s.lines.map lowerKey →
      ((appendAll s ws).1.lines.map lowerKey).count x =
        (s.lines.map lowerKey).count x := by
  induction ws with
  | nil => intro s x _; rfl
  | cons u rest ih =>
    intro s x hx
    simp only [appendAll]
    rw [SimpleSetInFile.append]
    by_cases hc : lowerKey u ∈ s.lines.map lowerKey
    · rw [if_pos hc]
      exact ih s x hx
    · rw [if_neg hc]
      have hne : lowerKey u ≠ x := fun he => hc (he ▸ hx)
      have hx2 : x ∈ (s.lines ++ [u]).map lowerKey := by
        simp only [List.map_append, List.mem_append]
        exact Or.inl hx
      rw [ih ⟨s.lines ++ [u]⟩ x hx2]
      simp only [List.map_append, List.count_append]
      have : (([u].map lowerKey).count x) = 0 := by
        simp [List.count_singleton]
        intro he
        exact absurd he.symm (fun h2 => hne h2.symm)
      omega

/-- C6.  In a confirmed non-dry-run marking step the first side effect is
the cache write of the full payload with `status = read` on every matched
entry; the last side effect is the remote bulk update with exactly the
matched ids; no remote update occurs anywhere before it; every AND/OR
keyword ends up (case-insensitively) in the dictionary; and keywords whose
lowered form was already present are skipped, leaving their multiplicity
unchanged. -/
theorem c6_marking_local_before_remote (dict : SimpleSetInFile)
    (entries : List Entry) (kA kO kN : List String) :
    (markingStep dict entries kA kO kN).2.2.head? =
      some (SideEffect.cacheWrite (entries.map (fun e =>
        if entryMatchesB kA kO kN e then { e with status := EntryStatus.read }
        else e))) ∧
    (markingStep dict entries kA kO kN).2.2.getLast? =
      some (SideEffect.remoteUpdate
        ((entries.filter (entryMatchesB kA kO kN)).map Entry.id)
        EntryStatus.read) ∧
    (∀ ev ∈ (markingStep dict entries kA kO kN).2.2.dropLast,
      ∀ ids st, ev ≠ SideEffect.remoteUpdate ids st) ∧
    (∀ w ∈ kA ++ kO,
      lowerKey w ∈ (markingStep dict entries kA kO kN).2.1.lines.map lowerKey) ∧
    (∀ x : List Char, x ∈ dict.lines.map lowerKey →
      ((markingStep dict entries kA kO kN).2.1.lines.map lowerKey).count x =
        (dict.lines.map lowerKey).count x) := by
  refine ⟨rfl, ?_, ?_, ?_, ?_⟩
  · show (SideEffect.cacheWrite _ :: ((appendAll dict (kA ++ kO)).2 ++
        [SideEffect.remoteUpdate _ _])).getLast? = _
    rw [← List.cons_append, List.getLast?_concat]
  · intro ev hev ids st
    have hshape : (markingStep dict entries kA kO kN).2.2.dropLast =
        SideEffect.cacheWrite (entries.map (fun e =>
          if entryMatchesB kA kO kN e then { e with status := EntryStatus.read }
          else e)) :: (appendAll dict (kA ++ kO)).2 := by
      show (SideEffect.cacheWrite _ :: ((appendAll dict (kA ++ kO)).2 ++
          [SideEffect.remoteUpdate _ _])).dropLast = _
      rw [← List.cons_append, List.dropLast_concat]
    rw [hshape] at hev
    rcases List.mem_cons.mp hev with he | he
    · rw [he]; intro hcon; cases hcon
    · rcases appendAll_events_dictWrite (kA ++ kO) dict ev he with ⟨lines, hl⟩
      rw [hl]; intro hcon; cases hcon
  · intro w hw
    exact appendAll_adds (kA ++ kO) dict w hw
  · intro x hx
    exact appendAll_count_preserved (kA ++ kO) dict x hx

/-- Witness for C6: with the dictionary holding "old", marking the scenario
entries with AND=["report"] puts "report" (case-insensitively) into the
dictionary. -/
theorem c6_witness :
    lowerKey "report" ∈
      ((markingStep ⟨["old"]⟩ [entryQuarterly, entryWeekly]
        ["report"] [] ["weekly"]).2.1.lines.map lowerKey) :=
  (c6_marking_local_before_remote ⟨["old"]⟩ [entryQuarterly, entryWeekly]
    ["report"] [] ["weekly"]).2.2.2.1 "report" (by simp)

/-- Fidelity link for the marking step: when every pattern compiles, the
search loop's result is exactly the filter by `entryMatchesB` that
`markingStep` uses for `results`/`ids`. -/
theorem searchLoop_eq_filter (kA kO kN : List String)
    (hwf : ∀ p ∈ kA ++ kO ++ kN, regexWellFormed p = true) :
    ∀ entries : List Entry,
      searchLoop kA kO kN entries =
        .ok (entries.filter (entryMatchesB kA kO kN)) := by
  have ha : ∀ p ∈ kA, regexWellFormed p = true := fun p hp => hwf p (by simp [hp])
  have ho : ∀ p ∈ kO, regexWellFormed p = true := fun p hp => hwf p (by simp [hp])
  have hn : ∀ p ∈ kN, regexWellFormed p = true := fun p hp => hwf p (by simp [hp])
  intro entries
  induction entries with
  | nil => rfl
  | cons x rest ih =>
    have hok := and_or_not_match_ok x.title kA kO kN ha ho hn
    simp only [searchLoop, List.filter_cons]
    by_cases hskip : (x.status == EntryStatus.read ||
        x.status == EntryStatus.removed) = true
    · have hmB : entryMatchesB kA kO kN x = false := by
        rw [entryMatchesB, hskip]
        rfl
      rw [if_pos hskip, ih, hmB]
      simp
    · have hskipf : (x.status == EntryStatus.read ||
          x.status == EntryStatus.removed) = false :=
        Bool.eq_false_iff.mpr hskip
      have hmB : entryMatchesB kA kO kN x =
          (andOrNotModel x.title kA kO kN).is_match := by
        rw [entryMatchesB, hok, hskipf]
        simp
      rw [if_neg hskip, hok, ih, hmB]
      dsimp only
      by_cases hc : (andOrNotModel x.title kA kO kN).is_match = true
      · rw [if_pos hc, if_pos hc]
      · rw [if_neg hc, if_neg hc]
